import Mathlib

/-!
Verification of the OCR-aware code comparison engine (`src/core.py`,
`src/ocr_correction.py`, `src/code_filters.py`) against its natural-language
specification.

The Python functions are shallowly embedded: strings are `String`, Python
sets are lists used with membership semantics, Python floats (which only
ever hold short decimal literals and their sums here) are modelled as `ℚ`,
and the big `compare_codes_with_correction` procedure is decomposed into
the loop bodies of its correction passes, folded in source order.
Computations of the source whose results are provably never used
(`pdf1_codes_list`, `pdf2_codes_list`, the `potential_fragments` statistics
and the comment/`method` text generation) are not modelled; the `method`
and `factors` fields of a correction record are presentation-only and are
omitted from the record structure.
-/

/-- Python `str.upper()` restricted to the per-character map (inputs are
ASCII code tokens). -/
def str_upper (s : String) : String :=
  String.mk (s.toList.map Char.toUpper)

/-- Removal of a trailing run of the characters `.,:;)`, i.e. the effect of
`re.sub(r'[.,:;)]+$', '', s)` in `clean_code_advanced`. -/
def strip_trailing_punct (s : String) : String :=
  String.mk ((s.toList.reverse.dropWhile (fun c => c ∈ ['.', ',', ':', ';', ')'])).reverse)

/-- Python `line.split()`: split on whitespace runs, dropping empty tokens. -/
def split_ws (s : String) : List String :=
  (s.split (fun c => c.isWhitespace)).filter (fun t => !(t == ""))

/-- Python substring test `pat in hay` on character lists. -/
def list_contains_sub (hay pat : List Char) : Bool :=
  match hay with
  | [] => pat.isEmpty
  | c :: t => pat.isPrefixOf (c :: t) || list_contains_sub t pat

/-- Python `list.index` returning the index of the first occurrence, or
`none` where Python raises `ValueError`. -/
def list_index (l : List String) (t : String) : Option Nat :=
  match l with
  | [] => none
  | a :: r => if a = t then some 0 else (list_index r t).map (· + 1)

/-- `itertools.product` over one list of alternatives per position. -/
def list_product {α : Type} : List (List α) → List (List α)
  | [] => [[]]
  | vs :: rest => vs.flatMap (fun c => (list_product rest).map (fun t => c :: t))

/-- Python `set.add` on the list model of a set. -/
def setAdd (s : List String) (x : String) : List String :=
  if x ∈ s then s else s ++ [x]

/-- Python `set.intersection` on the list model of a set. -/
def setInter (a b : List String) : List String :=
  a.filter (fun x => decide (x ∈ b))

/-- Python `set.difference` on the list model of a set. -/
def setDiff (a b : List String) : List String :=
  a.filter (fun x => !(decide (x ∈ b)))

/-- Python `set.union` on the list model of a set. -/
def setUnion (a b : List String) : List String :=
  a ++ b.filter (fun x => !(decide (x ∈ a)))

/-- The bidirectional confusable table `ocr_substitutions` of
`generate_all_ocr_variants` in `core.py`. -/
def ocr_substitutions (c : Char) : List Char :=
  match c with
  | '0' => ['O']
  | 'O' => ['0']
  | '8' => ['B']
  | 'B' => ['8']
  | 'I' => ['1', 'L']
  | '1' => ['I', 'L']
  | 'L' => ['I', '1']
  | '5' => ['S']
  | 'S' => ['5']
  | '6' => ['G']
  | 'G' => ['6']
  | '2' => ['Z']
  | 'Z' => ['2']
  | _ => []

/-- `get_variants_for_position`: the original character plus its confusables.
The source wraps this in `list(set(...))`, whose iteration order CPython
leaves unspecified; the embedding fixes original-first insertion order,
which no claim depends on. -/
def get_variants_for_position (c : Char) : List Char :=
  (c :: ocr_substitutions c).dedup

/-- `count_changes` of `generate_all_ocr_variants`: positions of `variant`
(up to `code`'s length) that differ from `code`. -/
def count_changes (code variant : String) : Nat :=
  (variant.toList.zip code.toList).countP (fun p => !(p.1 == p.2))

/-- The sort key relation used by `all_variants.sort(key=count_changes)`. -/
def variant_order (code : String) : String → String → Prop :=
  fun a b => count_changes code a ≤ count_changes code b

instance (code : String) : DecidableRel (variant_order code) :=
  fun a b => Nat.decLe (count_changes code a) (count_changes code b)

/-- `generate_all_ocr_variants` of `core.py`: the original code first,
then all other substitution permutations stably sorted by edit count. -/
def generate_all_ocr_variants (code : String) : List String :=
  let position_variants := code.toList.map get_variants_for_position
  let all_combos := (list_product position_variants).map (fun l => String.mk l)
  let all_variants := all_combos.filter (fun v => !(v == code))
  code :: all_variants.insertionSort (variant_order code)

/-- The basic cleaning prefix of `clean_code_advanced`: strip, remove
trailing punctuation, upper-case. -/
def basic_clean (code : String) : String :=
  str_upper (strip_trailing_punct code.trim)

/-- `clean_code_advanced` of `core.py`: basic cleaning, then the first
vocabulary hit among the ordered OCR variants, then (second character
`0`/`O`) the shortening pass, else the cleaned form unchanged. -/
def clean_code_advanced (code : String) (master_codes_set : List String) : String :=
  if code = "" then ""
  else
    let cleaned := basic_clean code
    if master_codes_set.isEmpty then cleaned
    else
      match (generate_all_ocr_variants cleaned).find? (fun v => decide (v ∈ master_codes_set)) with
      | some v => v
      | none =>
        let l := cleaned.toList
        if l.length > 3 ∧ l.length > 1 ∧ l.getD 1 ' ' ∈ ['0', 'O'] then
          let shortened := String.mk (l.take 1 ++ l.drop 2)
          if shortened.length ≥ 3 then
            match (generate_all_ocr_variants shortened).find? (fun v => decide (v ∈ master_codes_set)) with
            | some v => v
            | none => cleaned
          else cleaned
        else cleaned

/-- `count_corrections_needed` of `core.py`: 0 on raw equality, else length
delta plus positional mismatches of the upper-cased, stripped forms. -/
def count_corrections_needed (original corrected : String) : Nat :=
  if original = corrected then 0
  else
    let o := (str_upper original).trim.toList
    let c := (str_upper corrected).trim.toList
    (max o.length c.length - min o.length c.length)
      + (o.zip c).countP (fun p => !(p.1 == p.2))

/-- The `{'before': ..., 'after': ...}` context dictionary. -/
structure ContextWindow where
  before : List String
  after : List String
deriving DecidableEq

/-- `get_validated_context_codes` of `core.py`: up to `context_size` codes
on each side of the first occurrence of `target_code`; both sides empty
when the code is absent (Python catches the `ValueError`). -/
def get_validated_context_codes (all_validated_codes : List String) (target_code : String)
    (context_size : Nat) : ContextWindow :=
  match list_index all_validated_codes target_code with
  | some i =>
      { before := (all_validated_codes.take i).drop (i - context_size)
        after := (all_validated_codes.drop (i + 1)).take context_size }
  | none => { before := [], after := [] }

/-- The `context_details` dictionary of `calculate_precise_probability`. -/
structure ContextDetails where
  before_matches : Nat
  after_matches : Nat
  before_total : Nat
  after_total : Nat
deriving DecidableEq

/-- `calculate_precise_probability` of `core.py`. The two accumulation
loops over `range(min(len, len, 3))` are rendered as sums over
`List.range`; before-context is compared from the nearest element
backwards (Python's negative indexing, here via `reverse`). -/
def calculate_precise_probability (_code : String) (corrections_pdf1 corrections_pdf2 : Nat)
    (context_pdf1 context_pdf2 : ContextWindow) (is_in_both : Bool) : ℚ × ContextDetails :=
  let total_corrections := corrections_pdf1 + corrections_pdf2
  let probability : ℚ :=
    max 0 ((if is_in_both then 0.80 else 0.40) - (total_corrections : ℚ) * 0.10)
  if is_in_both then
    let before_weights : List ℚ :=
      if total_corrections = 0 then [0.10, 0.05, 0.02]
      else if total_corrections = 2 ∧ corrections_pdf1 = 1 ∧ corrections_pdf2 = 1 then
        [0.10, 0.07, 0.03]
      else [0.08, 0.05, 0.02]
    let after_weights : List ℚ :=
      if total_corrections = 0 then [0.08, 0.05, 0.02]
      else if total_corrections = 2 ∧ corrections_pdf1 = 1 ∧ corrections_pdf2 = 1 then
        [0.10, 0.07, 0.03]
      else [0.08, 0.05, 0.02]
    let b1 := context_pdf1.before.reverse
    let b2 := context_pdf2.before.reverse
    let before_total := min (min context_pdf1.before.length context_pdf2.before.length) 3
    let before_bonus :=
      ((List.range before_total).map
        (fun i => if b1.getD i "" = b2.getD i "" then before_weights.getD i 0 else 0)).sum
    let before_matches :=
      ((List.range before_total).filter (fun i => b1.getD i "" == b2.getD i "")).length
    let a1 := context_pdf1.after
    let a2 := context_pdf2.after
    let after_total := min (min a1.length a2.length) 3
    let after_bonus :=
      ((List.range after_total).map
        (fun i => if a1.getD i "" = a2.getD i "" then after_weights.getD i 0 else 0)).sum
    let after_matches :=
      ((List.range after_total).filter (fun i => a1.getD i "" == a2.getD i "")).length
    (max 0 (min 1 (probability + before_bonus + after_bonus)),
     { before_matches := before_matches, after_matches := after_matches
       before_total := before_total, after_total := after_total })
  else
    (max 0 (min 1 probability),
     { before_matches := 0, after_matches := 0, before_total := 0, after_total := 0 })

namespace OCRCorrector

/-- `OCRCorrector.substitutions` of `ocr_correction.py` (note the extra
`E↔F`, `S↔Z` and lowercase `l` entries relative to the table in
`core.py`). -/
def substitutions (c : Char) : List Char :=
  match c with
  | 'B' => ['8']
  | '8' => ['B']
  | 'O' => ['0']
  | '0' => ['O']
  | 'I' => ['1', 'l']
  | '1' => ['I', 'l']
  | 'l' => ['I', '1']
  | 'S' => ['5', 'Z']
  | '5' => ['S', 'Z']
  | 'Z' => ['S', '5', '2']
  | '2' => ['Z']
  | 'G' => ['6']
  | '6' => ['G']
  | 'E' => ['F']
  | 'F' => ['E']
  | _ => []

/-- `OCRCorrector.clean_whitespace`: remove every whitespace character. -/
def clean_whitespace (code : String) : String :=
  String.mk (code.toList.filter (fun c => !c.isWhitespace))

/-- `OCRCorrector.apply_zero_rule`: drop a `'0'` in the second position of
a code longer than 3, keeping at least 3 characters. -/
def apply_zero_rule (code : String) : String :=
  let l := code.toList
  if l.length > 3 ∧ l.length > 1 ∧ l.getD 1 ' ' = '0' then
    let p := l.take 1 ++ l.drop 2
    if p.length ≥ 3 then String.mk p else code
  else code

/-- `OCRCorrector.generate_simple_variants`: single substitutions of the
cleaned upper-cased code, each also tried with the zero rule, appended
without duplicates. -/
def generate_simple_variants (code : String) : List String :=
  let cl := (str_upper (clean_whitespace code)).toList
  let cands := (List.range cl.length).flatMap
    (fun i => (substitutions (cl.getD i ' ')).map (fun r => String.mk (cl.set i r)))
  cands.foldl (fun acc v =>
    let acc2 := if v ∈ acc then acc else acc ++ [v]
    let z := apply_zero_rule v
    if ¬ z ∈ acc2 ∧ ¬ z = v then acc2 ++ [z] else acc2) []

/-- `OCRCorrector.generate_variants`: the cleaned code plus every
combination of substitutions over the substitutable positions, each also
with the zero rule applied. The Python function returns a set; the list
here carries the same membership. -/
def generate_variants (code : String) : List String :=
  let cleaned := str_upper (clean_whitespace code)
  let cl := cleaned.toList
  let positions_to_substitute := (List.range cl.length).filterMap (fun i =>
    let ch := cl.getD i ' '
    if (substitutions ch).isEmpty then none
    else some ((i, ch) :: (substitutions ch).map (fun r => (i, r))))
  if positions_to_substitute.isEmpty then [cleaned]
  else
    cleaned :: (list_product positions_to_substitute).flatMap (fun comb =>
      let v := String.mk (comb.foldl (fun l p => l.set p.1 p.2) cl)
      [v, apply_zero_rule v])

end OCRCorrector

/-- `is_control_code` of `code_filters.py`: the code upper-cases to
something starting with `I`. -/
def is_control_code (code : String) : Bool :=
  !(code == "") && (str_upper code).startsWith "I"

/-- `categorize_codes_by_type` of `code_filters.py`, as the pair
`(normal, control)`. -/
def categorize_codes_by_type (codes : List String) : List String × List String :=
  (codes.filter (fun c => !is_control_code c), codes.filter (fun c => is_control_code c))

/-- The per-pair branch of the substitution loop in `analyze_corrections`. -/
def substitution_detail (o c : Char) : Option String :=
  if o = '8' ∧ c = 'B' then some "8→B"
  else if o = 'B' ∧ c = '8' then some "B→8"
  else if o = 'I' ∧ c = '1' then some "I→1"
  else if o = '1' ∧ c = 'I' then some "1→I"
  else if o = '0' ∧ c = 'O' then some "0→O"
  else if o = 'O' ∧ c = '0' then some "O→0"
  else if o = '5' ∧ c = 'S' then some "5→S"
  else if o = 'S' ∧ c = '5' then some "S→5"
  else if o = '6' ∧ c = 'G' then some "6→G"
  else if o = 'G' ∧ c = '6' then some "G→6"
  else if o = '2' ∧ c = 'Z' then some "2→Z"
  else if o = 'Z' ∧ c = '2' then some "Z→2"
  else none

/-- `analyze_corrections` of `core.py`: `none` on equality (Python
`None`), else either the second-position-zero-removal message or the
joined list of recognized substitutions, falling back to a generic
message. -/
def analyze_corrections (original corrected : String) : Option String :=
  if original = corrected then none
  else
    let o := original.toList
    let c := corrected.toList
    if o.length > c.length ∧ o.length > 1 ∧ o.getD 1 ' ' ∈ ['0', 'O']
        ∧ String.mk (o.take 1 ++ o.drop 2) = corrected then
      some "0 an 2. Stelle entfernt"
    else
      let subs := (o.zip c).filterMap
        (fun p => if p.1 = p.2 then none else substitution_detail p.1 p.2)
      let details :=
        if ' ' ∈ o ∧ ¬ ' ' ∈ c then subs ++ ["Leerzeichen entfernt"] else subs
      some (if details.isEmpty then "OCR-Korrektur" else String.intercalate ", " details)

/-- One entry of the `correction_info` list built by `extract_codes`. -/
structure CorrInfo where
  original : String
  corrected : String
  page : Nat
  position : Nat
  corrections_applied : List String
  corrections_count : Nat
deriving DecidableEq

/-- The body of the per-candidate cleaning/validation loop of
`extract_codes` (`core.py` lines 654-732): returns the validated code (if
any) and the correction-info record (if corrections were documented). In
the source the positions list always has the length of the raw-code list,
so its `i < len(...)` guard on the page estimate is dropped. -/
def process_raw_code (master_codes_set : List String) (i : Nat) (code : String) :
    Option String × Option CorrInfo :=
  let original_code := (str_upper code).trim
  let basic_cleaned := str_upper (strip_trailing_punct original_code.trim)
  if basic_cleaned ∈ master_codes_set then (some basic_cleaned, none)
  else
    match (generate_all_ocr_variants basic_cleaned).find?
        (fun v => decide (v ∈ master_codes_set)) with
    | some v =>
      let corrections_applied :=
        if v = basic_cleaned then []
        else
          match analyze_corrections basic_cleaned v with
          | some d => [d]
          | none => []
      (some v,
       if corrections_applied.isEmpty then none
       else some { original := original_code, corrected := v, page := i / 10 + 1
                   position := i, corrections_applied := corrections_applied
                   corrections_count := corrections_applied.length })
    | none =>
      let l := basic_cleaned.toList
      if l.length > 3 ∧ l.length > 1 ∧ l.getD 1 ' ' ∈ ['0', 'O'] then
        let shortened := String.mk (l.take 1 ++ l.drop 2)
        if shortened.length ≥ 3 then
          match (generate_all_ocr_variants shortened).find?
              (fun v => decide (v ∈ master_codes_set)) with
          | some v =>
            let ca0 := ["0 an 2. Stelle entfernt"]
            let ca :=
              if v = shortened then ca0
              else
                match analyze_corrections shortened v with
                | some d => ca0 ++ [d]
                | none => ca0
            (some v,
             some { original := original_code, corrected := v, page := i / 10 + 1
                    position := i, corrections_applied := ca
                    corrections_count := ca.length })
          | none => (none, none)
        else (none, none)
      else (none, none)

/-- The cleaning/validation loop of `extract_codes` over a whole raw-code
list: the set of validated codes and the `correction_info` list. -/
def validate_codes (raw_codes : List String) (master_codes_set : List String) :
    List String × List CorrInfo :=
  raw_codes.enum.foldl (fun acc p =>
    match process_raw_code master_codes_set p.1 p.2 with
    | (some v, some ci) => (setAdd acc.1 v, acc.2 ++ [ci])
    | (some v, none) => (setAdd acc.1 v, acc.2)
    | (none, _) => acc) ([], [])

/-- One entry of the `all_corrections` list of
`compare_codes_with_correction`. The `method` comment text and the (always
empty or constant) `factors` list are presentation-only and not modelled;
the heterogeneous Python `page` values are rendered as strings. -/
structure Correction where
  original : String
  corrected : String
  page : String
  probability : ℚ
  correction_type : String
deriving DecidableEq

/-- One entry of the `whitespace_combinations` list. -/
structure WsCombo where
  combined : String
  parts : List String
  line : Nat
  has_substitutions : Bool
  penalty : ℚ
deriving DecidableEq

/-- The mutable state of `compare_codes_with_correction`:
`(corrected_codes_pdf1, all_corrections)`. -/
abbrev CState := List String × List Correction

/-- Loop body of the `correction_info_pdf1` pass (`core.py` lines
819-855): score the extraction-time correction and add its corrected code
to `corrected_codes_pdf1` unconditionally. -/
def pass1_step (av1 av2 : List String) (st : CState) (ci : CorrInfo) : CState :=
  let ctx1 := get_validated_context_codes av1 ci.corrected 3
  let ctx2 := get_validated_context_codes av2 ci.corrected 3
  let cc := count_corrections_needed ci.original ci.corrected
  let probability := (calculate_precise_probability ci.corrected cc 0 ctx1 ctx2 true).1
  (setAdd st.1 ci.corrected,
   st.2 ++ [{ original := ci.original, corrected := ci.corrected, page := toString ci.page
              probability := probability, correction_type := "Erweiterte OCR-Korrektur" }])

/-- Loop body of the `correction_info_pdf2` pass (`core.py` lines
857-890): score only; `corrected_codes_pdf1` is unchanged. -/
def pass2_step (av1 av2 : List String) (st : CState) (ci : CorrInfo) : CState :=
  let ctx1 := get_validated_context_codes av1 ci.corrected 3
  let ctx2 := get_validated_context_codes av2 ci.corrected 3
  let cc := count_corrections_needed ci.original ci.corrected
  let probability := (calculate_precise_probability ci.corrected 0 cc ctx1 ctx2 true).1
  (st.1,
   st.2 ++ [{ original := ci.original, corrected := ci.corrected
              page := "PDF2 Seite " ++ toString ci.page
              probability := probability, correction_type := "Erweiterte OCR-Korrektur" }])

/-- Loop body of the whitespace-combination pass (`core.py` lines
971-1028): admit the merged code only when it is a vocabulary member,
present in `codes_pdf2`, and scores at least 0.6. -/
def ws_step (master codes_pdf2 av1 av2 : List String) (st : CState) (combo : WsCombo) : CState :=
  let combined_cleaned := clean_code_advanced combo.combined master
  if combined_cleaned ∈ master ∧ combined_cleaned ∈ codes_pdf2 then
    let ctx1 := get_validated_context_codes av1 combined_cleaned 3
    let ctx2 := get_validated_context_codes av2 combined_cleaned 3
    let original := String.intercalate " " combo.parts
    let cc := count_corrections_needed original combined_cleaned
    let p0 := (calculate_precise_probability combined_cleaned cc 0 ctx1 ctx2 true).1
    let probability :=
      if combo.has_substitutions then max 0.1 (min 1 (p0 + 0.1 - combo.penalty)) else p0
    if (0.6 : ℚ) ≤ probability then
      (setAdd st.1 combined_cleaned,
       st.2 ++ [{ original := original, corrected := combined_cleaned
                  page := "Zeile " ++ toString (combo.line + 1)
                  probability := probability, correction_type := "Korrekturmatch" }])
    else st
  else st

/-- Inner loop body of the cross-document substitution pass (`core.py`
lines 1037-1092): a raw PDF1 candidate whose cleaned form is an
OCR-variant of the PDF2-only target and not itself a vocabulary member. -/
def sub_inner_step (master av1 av2 : List String) (possible_variants : List String)
    (target_code : String) (st : CState) (raw : String × Nat × Nat) : CState :=
  let cleaned_raw := clean_code_advanced raw.1 master
  if cleaned_raw ∈ possible_variants ∧ ¬ cleaned_raw ∈ master then
    let ctx1 := get_validated_context_codes av1 target_code 3
    let ctx2 := get_validated_context_codes av2 target_code 3
    let cc := count_corrections_needed cleaned_raw target_code
    let probability := (calculate_precise_probability target_code cc 0 ctx1 ctx2 true).1
    if (0.6 : ℚ) ≤ probability then
      (setAdd st.1 target_code,
       st.2 ++ [{ original := cleaned_raw, corrected := target_code, page := toString raw.2.1
                  probability := probability, correction_type := "Korrekturmatch" }])
    else st
  else st

/-- Outer loop body of the cross-document substitution pass: one
PDF2-only target tested against every raw PDF1 candidate. -/
def sub_outer_step (master av1 av2 : List String) (raw_codes_pdf1 : List (String × Nat × Nat))
    (st : CState) (target_code : String) : CState :=
  let possible_variants := OCRCorrector.generate_variants target_code
  raw_codes_pdf1.foldl (sub_inner_step master av1 av2 possible_variants target_code) st

/-- Loop body of the direct-match classification pass (`core.py` lines
1103-1140): codes of the baseline intersection without recorded
corrections are scored with a 1-wide context window. -/
def direct_step (av1 av2 codes_with_corrections : List String) (st : CState)
    (code : String) : CState :=
  if code ∈ codes_with_corrections then st
  else
    let ctx1 := get_validated_context_codes av1 code 1
    let ctx2 := get_validated_context_codes av2 code 1
    let probability := (calculate_precise_probability code 0 0 ctx1 ctx2 true).1
    (st.1,
     st.2 ++ [{ original := code, corrected := code, page := "Beide"
                probability := probability, correction_type := "Direkter Match" }])

/-- The whitespace combinations built from one text line (`core.py` lines
911-953): 2- and 3-token windows whose concatenation has plausible code
length and which contain a token that is a substring of some vocabulary
code, plus up to three simple substitution variants of the merged form. -/
def build_line_combos (master_codes_set : List String) (line_idx : Nat)
    (tokens : List String) : List WsCombo :=
  (List.range tokens.length).flatMap (fun start_idx =>
    (List.range' (start_idx + 2) (min (start_idx + 4) (tokens.length + 1) - (start_idx + 2))).flatMap
      (fun end_idx =>
        let token_group := (tokens.drop start_idx).take (end_idx - start_idx)
        let base_combined := OCRCorrector.clean_whitespace (String.join token_group)
        if 3 ≤ base_combined.length ∧ base_combined.length ≤ 7 then
          if token_group.any (fun tok => master_codes_set.any (fun mc =>
               list_contains_sub mc.toList
                 (str_upper (OCRCorrector.clean_whitespace tok)).toList)) then
            { combined := base_combined, parts := token_group, line := line_idx
              has_substitutions := false, penalty := 0 } ::
            ((OCRCorrector.generate_simple_variants base_combined).take 3).filterMap
              (fun variant =>
                if ¬ variant = base_combined ∧ 3 ≤ variant.length ∧ variant.length ≤ 7 then
                  some { combined := variant, parts := token_group, line := line_idx
                         has_substitutions := true, penalty := 0.1 }
                else none)
          else []
        else []))

/-- The fallback whitespace combinations from adjacent raw codes
(`core.py` lines 957-969), used when no text lines were supplied. -/
def fallback_combos (raw_codes_pdf1 : List (String × Nat × Nat)) : List WsCombo :=
  let raw_codes_only := raw_codes_pdf1.map (fun x => x.1)
  (List.range (raw_codes_only.length - 1)).filterMap (fun i =>
    let combined := OCRCorrector.clean_whitespace
      (raw_codes_only.getD i "" ++ raw_codes_only.getD (i + 1) "")
    if 3 ≤ combined.length ∧ combined.length ≤ 7 then
      some { combined := combined
             parts := [raw_codes_only.getD i "", raw_codes_only.getD (i + 1) ""]
             line := i, has_substitutions := false, penalty := 0 }
    else none)

/-- The full `whitespace_combinations` list: per-line combinations when a
non-empty text-line list is supplied (Python `if all_text_lines_pdf1:`),
else the fallback. -/
def build_whitespace_combos (master_codes_set : List String)
    (all_text_lines_pdf1 : Option (List String))
    (raw_codes_pdf1 : List (String × Nat × Nat)) : List WsCombo :=
  match all_text_lines_pdf1 with
  | some lines =>
    if lines.isEmpty then fallback_combos raw_codes_pdf1
    else lines.enum.flatMap (fun p => build_line_combos master_codes_set p.1 (split_ws p.2))
  | none => fallback_combos raw_codes_pdf1

/-- The lexicographic key `(page, position)` of
`sorted(raw_codes, key=lambda x: (x[1], x[2]))`. -/
def raw_le (a b : String × Nat × Nat) : Prop :=
  a.2.1 < b.2.1 ∨ (a.2.1 = b.2.1 ∧ a.2.2 ≤ b.2.2)

instance : DecidableRel raw_le := fun a b =>
  inferInstanceAs (Decidable (a.2.1 < b.2.1 ∨ (a.2.1 = b.2.1 ∧ a.2.2 ≤ b.2.2)))

/-- `sorted(raw_codes, key=lambda x: (x[1], x[2]))` as a stable sort. -/
def sort_raw_codes (l : List (String × Nat × Nat)) : List (String × Nat × Nat) :=
  l.insertionSort raw_le

/-- All correction-discovery and classification passes of
`compare_codes_with_correction`, threaded through the state
`(corrected_codes_pdf1, all_corrections)` in source order. -/
def run_all_passes (codes_pdf1 codes_pdf2 av1 av2 only_in_pdf2 in_both : List String)
    (raw_codes_pdf1 : List (String × Nat × Nat)) (master_codes_set : List String)
    (all_text_lines_pdf1 : Option (List String)) (ci1 ci2 : List CorrInfo) : CState :=
  let st1 := ci1.foldl (pass1_step av1 av2) (codes_pdf1, [])
  let st2 := ci2.foldl (pass2_step av1 av2) st1
  let st3 := (build_whitespace_combos master_codes_set all_text_lines_pdf1 raw_codes_pdf1).foldl
    (ws_step master_codes_set codes_pdf2 av1 av2) st2
  let st4 := only_in_pdf2.foldl
    (sub_outer_step master_codes_set av1 av2 raw_codes_pdf1) st3
  let codes_with_corrections :=
    ((ci1 ++ ci2).filter (fun ci => 0 < ci.corrections_count)).map (fun ci => ci.corrected)
  in_both.foldl (direct_step av1 av2 codes_with_corrections) st4

/-- One family of membership sets of the result dictionary (the `original`
or the `corrected` entry), with its `normal`/`control` split. -/
structure CompareGroup where
  in_both : List String
  only_in_pdf1 : List String
  only_in_pdf2 : List String
  normal_in_both : List String
  normal_only_in_pdf1 : List String
  normal_only_in_pdf2 : List String
  control_in_both : List String
  control_only_in_pdf1 : List String
  control_only_in_pdf2 : List String
deriving DecidableEq

/-- The category-wise set algebra that `compare_codes_with_correction`
performs identically for the baseline (lines 779-791) and the corrected
(lines 1143-1159) sets. -/
def make_group (codes1 codes2 : List String) : CompareGroup :=
  let c1 := categorize_codes_by_type codes1
  let c2 := categorize_codes_by_type codes2
  let nib := setInter c1.1 c2.1
  let no1 := setDiff c1.1 c2.1
  let no2 := setDiff c2.1 c1.1
  let cib := setInter c1.2 c2.2
  let co1 := setDiff c1.2 c2.2
  let co2 := setDiff c2.2 c1.2
  { in_both := setUnion nib cib, only_in_pdf1 := setUnion no1 co1
    only_in_pdf2 := setUnion no2 co2
    normal_in_both := nib, normal_only_in_pdf1 := no1, normal_only_in_pdf2 := no2
    control_in_both := cib, control_only_in_pdf1 := co1, control_only_in_pdf2 := co2 }

/-- The result dictionary of `compare_codes_with_correction` (the static
`legend` entry is not modelled). -/
structure CompareResult where
  original : CompareGroup
  corrected : CompareGroup
  corrections : List Correction
deriving DecidableEq

/-- `compare_codes_with_correction` of `core.py`. The Python `None`
defaults of the optional arguments behave exactly like the empty list /
`none` here. -/
def compare_codes_with_correction (codes_pdf1 codes_pdf2 : List String)
    (raw_codes_pdf1 raw_codes_pdf2 : List (String × Nat × Nat))
    (master_codes_set : List String) (all_text_lines_pdf1 : Option (List String))
    (correction_info_pdf1 correction_info_pdf2 : List CorrInfo) : CompareResult :=
  let original_group := make_group codes_pdf1 codes_pdf2
  let sorted1 := sort_raw_codes raw_codes_pdf1
  let sorted2 := sort_raw_codes raw_codes_pdf2
  let all_validated_pdf1 := (sorted1.map (fun x => clean_code_advanced x.1 master_codes_set)).filter
    (fun c => decide (c ∈ master_codes_set))
  let all_validated_pdf2 := (sorted2.map (fun x => clean_code_advanced x.1 master_codes_set)).filter
    (fun c => decide (c ∈ master_codes_set))
  let st := run_all_passes codes_pdf1 codes_pdf2 all_validated_pdf1 all_validated_pdf2
    original_group.only_in_pdf2 original_group.in_both raw_codes_pdf1 master_codes_set
    all_text_lines_pdf1 correction_info_pdf1 correction_info_pdf2
  { original := original_group
    corrected := make_group st.1 codes_pdf2
    corrections := st.2 }

/-- Spec §4.5, stated independently of the implementation: the context
bonus adds the weight at each relative offset (nearest first) where the
two documents' context codes agree. -/
def spec_context_bonus : List String → List String → List ℚ → ℚ
  | x :: xs, y :: ys, w :: ws => (if x = y then w else 0) + spec_context_bonus xs ys ws
  | _, _, _ => 0

/-- Spec §4.5, stated independently of the implementation: base
probability by presence and correction count, context bonus only when
present in both documents, final value clamped to `[0, 1]`. -/
def confidence_scorer_spec (c1 c2 : Nat) (ctx1 ctx2 : ContextWindow) (is_in_both : Bool) : ℚ :=
  let t := c1 + c2
  let base : ℚ :=
    if is_in_both then (if t = 0 then 0.80 else max 0 (0.80 - 0.10 * (t : ℚ)))
    else max 0 (0.40 - 0.10 * (t : ℚ))
  let bonus : ℚ :=
    if is_in_both then
      let bw : List ℚ :=
        if t = 0 then [0.10, 0.05, 0.02]
        else if c1 = 1 ∧ c2 = 1 then [0.10, 0.07, 0.03]
        else [0.08, 0.05, 0.02]
      let aw : List ℚ :=
        if t = 0 then [0.08, 0.05, 0.02]
        else if c1 = 1 ∧ c2 = 1 then [0.10, 0.07, 0.03]
        else [0.08, 0.05, 0.02]
      spec_context_bonus ctx1.before.reverse ctx2.before.reverse bw
        + spec_context_bonus ctx1.after ctx2.after aw
    else 0
  min 1 (max 0 (base + bonus))

/-- The invariant carried through the correction passes: every code of
`corrected_codes_pdf1` comes from `codes_pdf1`, a PDF1 extraction-time
correction, or `codes_pdf2`; every `Korrekturmatch` record cleared the
0.6 gate; and `codes_pdf1` is never shrunk. -/
def PassInv (codes_pdf1 codes_pdf2 : List String) (ci1 : List CorrInfo) (st : CState) : Prop :=
  (∀ x ∈ st.1, x ∈ codes_pdf1 ∨ x ∈ ci1.map (fun ci => ci.corrected) ∨ x ∈ codes_pdf2) ∧
  (∀ c ∈ st.2, c.correction_type = "Korrekturmatch" → (0.6 : ℚ) ≤ c.probability) ∧
  (∀ x ∈ codes_pdf1, x ∈ st.1)

theorem foldl_preserve {α β : Type} (f : β → α → β) (l : List α) (P : β → Prop)
    (h : ∀ s a, a ∈ l → P s → P (f s a)) : ∀ s, P s → P (l.foldl f s) := by
  induction l with
  | nil => intro s hs; exact hs
  | cons a t ih =>
    intro s hs
    exact ih (fun s b hb => h s b (List.mem_cons_of_mem _ hb)) _
      (h s a (List.mem_cons_self _ _) hs)

theorem foldl_fixed {α β : Type} (f : β → α → β) (l : List α)
    (h : ∀ s a, f s a = s) (s : β) : l.foldl f s = s := by
  induction l generalizing s with
  | nil => rfl
  | cons a t ih => rw [List.foldl_cons, h, ih]

theorem mem_setAdd {s : List String} {x y : String} : y ∈ setAdd s x ↔ y ∈ s ∨ y = x := by
  by_cases h : x ∈ s
  · simp only [setAdd, if_pos h]
    constructor
    · exact Or.inl
    · rintro (hy | rfl)
      · exact hy
      · exact h
  · simp [setAdd, if_neg h]

theorem mem_setUnion {a b : List String} {x : String} :
    x ∈ setUnion a b ↔ x ∈ a ∨ x ∈ b := by
  simp only [setUnion, List.mem_append, List.mem_filter, Bool.not_eq_true',
    decide_eq_false_iff_not]
  tauto

theorem mem_setInter {a b : List String} {x : String} :
    x ∈ setInter a b ↔ x ∈ a ∧ x ∈ b := by
  simp [setInter, List.mem_filter]

theorem mem_setDiff {a b : List String} {x : String} :
    x ∈ setDiff a b ↔ x ∈ a ∧ ¬ x ∈ b := by
  simp [setDiff, List.mem_filter]

theorem make_group_mem_left {a b : List String} {x : String}
    (h : x ∈ (make_group a b).in_both ∨ x ∈ (make_group a b).only_in_pdf1) : x ∈ a := by
  simp only [make_group, categorize_codes_by_type] at h
  rcases h with h | h <;>
    rcases mem_setUnion.mp h with h | h <;>
    first
      | exact (List.mem_filter.mp (mem_setInter.mp h).1).1
      | exact (List.mem_filter.mp (mem_setDiff.mp h).1).1

theorem make_group_mem_right {a b : List String} {x : String}
    (h : x ∈ (make_group a b).only_in_pdf2) : x ∈ b := by
  simp only [make_group, categorize_codes_by_type] at h
  rcases mem_setUnion.mp h with h | h <;>
    exact (List.mem_filter.mp (mem_setDiff.mp h).1).1

theorem make_group_split {a b : List String} {x : String} (hx : x ∈ a) :
    x ∈ (make_group a b).in_both ∨ x ∈ (make_group a b).only_in_pdf1 := by
  simp only [make_group, categorize_codes_by_type]
  by_cases hc : is_control_code x = true
  · by_cases hb : x ∈ b.filter (fun c => is_control_code c)
    · exact Or.inl (mem_setUnion.mpr (Or.inr (mem_setInter.mpr
        ⟨List.mem_filter.mpr ⟨hx, hc⟩, hb⟩)))
    · exact Or.inr (mem_setUnion.mpr (Or.inr (mem_setDiff.mpr
        ⟨List.mem_filter.mpr ⟨hx, hc⟩, hb⟩)))
  · have hc2 : (!is_control_code x) = true := by simp [hc]
    by_cases hb : x ∈ b.filter (fun c => !is_control_code c)
    · exact Or.inl (mem_setUnion.mpr (Or.inl (mem_setInter.mpr
        ⟨List.mem_filter.mpr ⟨hx, hc2⟩, hb⟩)))
    · exact Or.inr (mem_setUnion.mpr (Or.inl (mem_setDiff.mpr
        ⟨List.mem_filter.mpr ⟨hx, hc2⟩, hb⟩)))

theorem pass1_step_inv {codes_pdf1 codes_pdf2 : List String} {ci1 : List CorrInfo}
    (av1 av2 : List String) (st : CState) (ci : CorrInfo) (hci : ci ∈ ci1)
    (h : PassInv codes_pdf1 codes_pdf2 ci1 st) :
    PassInv codes_pdf1 codes_pdf2 ci1 (pass1_step av1 av2 st ci) := by
  obtain ⟨h1, h2, h3⟩ := h
  refine ⟨?_, ?_, ?_⟩
  · intro x hx
    rcases mem_setAdd.mp hx with hx | rfl
    · exact h1 x hx
    · exact Or.inr (Or.inl (List.mem_map.mpr ⟨ci, hci, rfl⟩))
  · intro c hc
    rcases List.mem_append.mp hc with hc | hc
    · exact h2 c hc
    · rw [List.mem_singleton.mp hc]
      intro habs
      have hlit : "Erweiterte OCR-Korrektur" = "Korrekturmatch" := habs
      exact absurd hlit (by decide)
  · intro x hx
    exact mem_setAdd.mpr (Or.inl (h3 x hx))

theorem pass2_step_inv {codes_pdf1 codes_pdf2 : List String} {ci1 : List CorrInfo}
    (av1 av2 : List String) (st : CState) (ci : CorrInfo)
    (h : PassInv codes_pdf1 codes_pdf2 ci1 st) :
    PassInv codes_pdf1 codes_pdf2 ci1 (pass2_step av1 av2 st ci) := by
  obtain ⟨h1, h2, h3⟩ := h
  refine ⟨h1, ?_, h3⟩
  intro c hc
  rcases List.mem_append.mp hc with hc | hc
  · exact h2 c hc
  · rw [List.mem_singleton.mp hc]
    intro habs
    have hlit : "Erweiterte OCR-Korrektur" = "Korrekturmatch" := habs
    exact absurd hlit (by decide)

theorem gate_add_inv {codes_pdf1 codes_pdf2 : List String} {ci1 : List CorrInfo}
    (st : CState) (cc orig page : String) (p : ℚ) (hcc : cc ∈ codes_pdf2) (hp : (0.6 : ℚ) ≤ p)
    (h : PassInv codes_pdf1 codes_pdf2 ci1 st) :
    PassInv codes_pdf1 codes_pdf2 ci1
      (setAdd st.1 cc, st.2 ++ [⟨orig, cc, page, p, "Korrekturmatch"⟩]) := by
  obtain ⟨h1, h2, h3⟩ := h
  refine ⟨?_, ?_, ?_⟩
  · intro x hx
    rcases mem_setAdd.mp hx with hx | rfl
    · exact h1 x hx
    · exact Or.inr (Or.inr hcc)
  · intro c hc
    rcases List.mem_append.mp hc with hc | hc
    · exact h2 c hc
    · rw [List.mem_singleton.mp hc]
      intro _
      exact hp
  · intro x hx
    exact mem_setAdd.mpr (Or.inl (h3 x hx))

theorem ws_step_inv {codes_pdf1 codes_pdf2 : List String} {ci1 : List CorrInfo}
    (master av1 av2 : List String) (st : CState) (combo : WsCombo)
    (h : PassInv codes_pdf1 codes_pdf2 ci1 st) :
    PassInv codes_pdf1 codes_pdf2 ci1 (ws_step master codes_pdf2 av1 av2 st combo) := by
  simp only [ws_step]
  split
  next hcond =>
    split
    · split
      next hprob => exact gate_add_inv st _ _ _ _ hcond.2 hprob h
      next => exact h
    · split
      next hprob => exact gate_add_inv st _ _ _ _ hcond.2 hprob h
      next => exact h
  next => exact h

theorem sub_inner_step_inv {codes_pdf1 codes_pdf2 : List String} {ci1 : List CorrInfo}
    (master av1 av2 possible_variants : List String) (target_code : String)
    (htarget : target_code ∈ codes_pdf2) (st : CState) (raw : String × Nat × Nat)
    (h : PassInv codes_pdf1 codes_pdf2 ci1 st) :
    PassInv codes_pdf1 codes_pdf2 ci1
      (sub_inner_step master av1 av2 possible_variants target_code st raw) := by
  simp only [sub_inner_step]
  split
  next =>
    split
    next hprob => exact gate_add_inv st _ _ _ _ htarget hprob h
    next => exact h
  next => exact h

theorem sub_outer_step_inv {codes_pdf1 codes_pdf2 : List String} {ci1 : List CorrInfo}
    (master av1 av2 : List String) (raw_codes_pdf1 : List (String × Nat × Nat))
    (st : CState) (target_code : String) (htarget : target_code ∈ codes_pdf2)
    (h : PassInv codes_pdf1 codes_pdf2 ci1 st) :
    PassInv codes_pdf1 codes_pdf2 ci1
      (sub_outer_step master av1 av2 raw_codes_pdf1 st target_code) := by
  simp only [sub_outer_step]
  exact foldl_preserve _ _ _
    (fun s a _ hs => sub_inner_step_inv master av1 av2 _ target_code htarget s a hs) st h

theorem direct_step_inv {codes_pdf1 codes_pdf2 : List String} {ci1 : List CorrInfo}
    (av1 av2 codes_with_corrections : List String) (st : CState) (code : String)
    (h : PassInv codes_pdf1 codes_pdf2 ci1 st) :
    PassInv codes_pdf1 codes_pdf2 ci1
      (direct_step av1 av2 codes_with_corrections st code) := by
  obtain ⟨h1, h2, h3⟩ := h
  simp only [direct_step]
  split
  next => exact ⟨h1, h2, h3⟩
  next =>
    refine ⟨h1, ?_, h3⟩
    intro c hc
    rcases List.mem_append.mp hc with hc | hc
    · exact h2 c hc
    · rw [List.mem_singleton.mp hc]
      intro habs
      have hlit : "Direkter Match" = "Korrekturmatch" := habs
      exact absurd hlit (by decide)

theorem run_all_passes_inv (codes_pdf1 codes_pdf2 av1 av2 only_in_pdf2 in_both : List String)
    (raw_codes_pdf1 : List (String × Nat × Nat)) (master_codes_set : List String)
    (all_text_lines_pdf1 : Option (List String)) (ci1 ci2 : List CorrInfo)
    (honly : ∀ t ∈ only_in_pdf2, t ∈ codes_pdf2) :
    PassInv codes_pdf1 codes_pdf2 ci1
      (run_all_passes codes_pdf1 codes_pdf2 av1 av2 only_in_pdf2 in_both raw_codes_pdf1
        master_codes_set all_text_lines_pdf1 ci1 ci2) := by
  have base : PassInv codes_pdf1 codes_pdf2 ci1 (codes_pdf1, ([] : List Correction)) :=
    ⟨fun x hx => Or.inl hx, by simp, fun x hx => hx⟩
  simp only [run_all_passes]
  refine foldl_preserve _ _ _ (fun s a _ hs => direct_step_inv av1 av2 _ s a hs) _ ?_
  refine foldl_preserve _ _ _
    (fun s a ha hs => sub_outer_step_inv master_codes_set av1 av2 _ s a (honly a ha) hs) _ ?_
  refine foldl_preserve _ _ _ (fun s a _ hs => ws_step_inv master_codes_set av1 av2 s a hs) _ ?_
  refine foldl_preserve _ _ _ (fun s a _ hs => pass2_step_inv av1 av2 s a hs) _ ?_
  exact foldl_preserve _ _ _ (fun s a ha hs => pass1_step_inv av1 av2 s a ha hs) _ base

set_option maxRecDepth 8000

/-- C1, counterexample: with vocabulary `{"BBB"}` and the single raw PDF1
candidate `"888"`, extraction validates `"BBB"` with a 3-substitution
correction record; `compare_codes_with_correction` computes probability
0.5 < 0.6 for this (its only) correction, yet `"BBB"` stands in the final
corrected `only_in_pdf1` set: the 0.60 admission gate does not apply to
extraction-time (resolver-sourced) corrections. -/
theorem C1_counterexample :
    (let r := compare_codes_with_correction (validate_codes ["888"] ["BBB"]).1 []
        [("888", 1, 0)] [] ["BBB"] none (validate_codes ["888"] ["BBB"]).2 []
     r.corrections.length = 1 ∧
       (∀ c ∈ r.corrections, c.corrected = "BBB" ∧ c.probability < 0.6) ∧
       "BBB" ∈ r.corrected.only_in_pdf1) := by
  with_unfolding_all decide

/-- C1, amended: the 0.60 admission gate governs exactly the fragment-merge
and cross-document substitution passes — every correction record of type
`Korrekturmatch` has probability ≥ 0.60 — while resolver-sourced
corrections (`correction_info_pdf1`) are admitted into the corrected
membership sets unconditionally: any code of those sets comes from
`codes_pdf1`, `codes_pdf2`, or a `correction_info_pdf1` corrected code. -/
theorem C1_admission_gate (codes_pdf1 codes_pdf2 : List String)
    (raw1 raw2 : List (String × Nat × Nat)) (master : List String)
    (textLines : Option (List String)) (ci1 ci2 : List CorrInfo) :
    (∀ c ∈ (compare_codes_with_correction codes_pdf1 codes_pdf2 raw1 raw2 master
        textLines ci1 ci2).corrections,
      c.correction_type = "Korrekturmatch" → (0.6 : ℚ) ≤ c.probability) ∧
    (∀ x, x ∈ (compare_codes_with_correction codes_pdf1 codes_pdf2 raw1 raw2 master
          textLines ci1 ci2).corrected.in_both ∨
        x ∈ (compare_codes_with_correction codes_pdf1 codes_pdf2 raw1 raw2 master
          textLines ci1 ci2).corrected.only_in_pdf1 ∨
        x ∈ (compare_codes_with_correction codes_pdf1 codes_pdf2 raw1 raw2 master
          textLines ci1 ci2).corrected.only_in_pdf2 →
        x ∈ codes_pdf1 ∨ x ∈ codes_pdf2 ∨ x ∈ ci1.map (fun ci => ci.corrected)) := by
  have honly : ∀ t ∈ (make_group codes_pdf1 codes_pdf2).only_in_pdf2, t ∈ codes_pdf2 :=
    fun t ht => make_group_mem_right ht
  constructor
  · intro c hc
    simp only [compare_codes_with_correction] at hc
    exact (run_all_passes_inv _ _ _ _ _ _ _ _ _ _ _ honly).2.1 c hc
  · intro x hx
    simp only [compare_codes_with_correction] at hx
    rcases hx with hx | hx | hx
    · rcases (run_all_passes_inv _ _ _ _ _ _ _ _ _ _ _ honly).1 x
        (make_group_mem_left (Or.inl hx)) with h | h | h
      · exact Or.inl h
      · exact Or.inr (Or.inr h)
      · exact Or.inr (Or.inl h)
    · rcases (run_all_passes_inv _ _ _ _ _ _ _ _ _ _ _ honly).1 x
        (make_group_mem_left (Or.inr hx)) with h | h | h
      · exact Or.inl h
      · exact Or.inr (Or.inr h)
      · exact Or.inr (Or.inl h)
    · exact Or.inr (Or.inl (make_group_mem_right hx))

/-- C1, witness for the amended theorem at a concrete input. -/
theorem C1_admission_gate_witness :
    "BBB" ∈ (["BBB"] : List String) ∨ "BBB" ∈ ([] : List String) ∨
      "BBB" ∈ ([] : List CorrInfo).map (fun ci => ci.corrected) :=
  (C1_admission_gate ["BBB"] [] [] [] ["BBB"] none [] []).2 "BBB"
    (Or.inr (Or.inl (by with_unfolding_all decide)))

/-- C10: the final corrected membership of document 1 (`in_both` together
with `only_in_pdf1` of the corrected sets) always contains every
originally validated code of `codes_pdf1`; correction discovery only adds
codes. -/
theorem C10_corrected_superset (codes_pdf1 codes_pdf2 : List String)
    (raw1 raw2 : List (String × Nat × Nat)) (master : List String)
    (textLines : Option (List String)) (ci1 ci2 : List CorrInfo) (x : String)
    (hx : x ∈ codes_pdf1) :
    x ∈ (compare_codes_with_correction codes_pdf1 codes_pdf2 raw1 raw2 master
        textLines ci1 ci2).corrected.in_both ∨
    x ∈ (compare_codes_with_correction codes_pdf1 codes_pdf2 raw1 raw2 master
        textLines ci1 ci2).corrected.only_in_pdf1 := by
  have honly : ∀ t ∈ (make_group codes_pdf1 codes_pdf2).only_in_pdf2, t ∈ codes_pdf2 :=
    fun t ht => make_group_mem_right ht
  simp only [compare_codes_with_correction]
  exact make_group_split ((run_all_passes_inv _ _ _ _ _ _ _ _ _ _ _ honly).2.2 x hx)

/-- C10, witness at a concrete input. -/
theorem C10_corrected_superset_witness :
    "A1X" ∈ (compare_codes_with_correction ["A1X"] [] [] [] ["A1X"] none
        [] []).corrected.in_both ∨
    "A1X" ∈ (compare_codes_with_correction ["A1X"] [] [] [] ["A1X"] none
        [] []).corrected.only_in_pdf1 :=
  C10_corrected_superset ["A1X"] [] [] [] ["A1X"] none [] [] "A1X"
    (by with_unfolding_all decide)

theorem process_raw_code_empty (i : Nat) (code : String) :
    process_raw_code [] i code = (none, none) := by
  have hfind : ∀ l : List String,
      l.find? (fun v => decide (v ∈ ([] : List String))) = none := by
    intro l
    apply List.find?_eq_none.mpr
    intro x _
    simp
  simp only [process_raw_code]
  rw [if_neg (List.not_mem_nil _), hfind]
  split
  all_goals try (exfalso; simp_all; done)
  split
  · split
    · rw [hfind]
    · rfl
  · rfl

theorem validate_codes_empty (raw_codes : List String) :
    validate_codes raw_codes [] = ([], []) := by
  simp only [validate_codes]
  apply foldl_fixed
  intro s a
  rw [process_raw_code_empty]

theorem ws_step_empty_master (codes_pdf2 av1 av2 : List String) (st : CState)
    (combo : WsCombo) : ws_step [] codes_pdf2 av1 av2 st combo = st := by
  simp only [ws_step]
  rw [if_neg]
  rintro ⟨h1, _⟩
  exact List.not_mem_nil _ h1

theorem compare_empty (raw1 raw2 : List (String × Nat × Nat))
    (textLines : Option (List String)) :
    compare_codes_with_correction [] [] raw1 raw2 [] textLines [] [] =
      { original := make_group [] [], corrected := make_group [] [], corrections := [] } := by
  have hg : make_group [] [] =
      ⟨[], [], [], [], [], [], [], [], []⟩ := rfl
  simp only [compare_codes_with_correction, run_all_passes, hg, List.foldl_nil]
  rw [foldl_fixed _ _ (fun s a => ws_step_empty_master [] _ _ s a)]
  rfl

/-- C8: with an empty vocabulary, no raw candidate of either document
validates and no correction record is produced by extraction; the engine
(a total function, so it cannot raise) returns empty membership sets
everywhere — in particular zero corrected matches and an empty
corrections list. -/
theorem C8_empty_vocabulary (raw_texts1 raw_texts2 : List String)
    (rawPos1 rawPos2 : List (String × Nat × Nat)) (textLines : Option (List String)) :
    validate_codes raw_texts1 [] = ([], []) ∧
    validate_codes raw_texts2 [] = ([], []) ∧
    (let r := compare_codes_with_correction (validate_codes raw_texts1 []).1
        (validate_codes raw_texts2 []).1 rawPos1 rawPos2 [] textLines
        (validate_codes raw_texts1 []).2 (validate_codes raw_texts2 []).2
     r.corrections = [] ∧
       r.corrected.in_both = [] ∧ r.corrected.only_in_pdf1 = [] ∧
       r.corrected.only_in_pdf2 = [] ∧
       r.original.in_both = [] ∧ r.original.only_in_pdf1 = [] ∧
       r.original.only_in_pdf2 = []) := by
  refine ⟨validate_codes_empty _, validate_codes_empty _, ?_⟩
  rw [validate_codes_empty, validate_codes_empty]
  have hg : make_group [] [] = ⟨[], [], [], [], [], [], [], [], []⟩ := rfl
  simp [compare_empty, hg]

theorem clamp_comm (z : ℚ) : max 0 (min 1 z) = min 1 (max 0 z) := by
  rcases le_total z 0 with h | h
  · rw [min_eq_right (h.trans zero_le_one), max_eq_left h,
      min_eq_right (by norm_num : (0 : ℚ) ≤ 1)]
  · rw [max_eq_right h, max_eq_right (le_min zero_le_one h)]

theorem range_bonus (x y : List String) (w : List ℚ) :
    ((List.range (min (min x.length y.length) w.length)).map
      (fun i => if x.getD i "" = y.getD i "" then w.getD i 0 else 0)).sum
    = spec_context_bonus x y w := by
  induction x generalizing y w with
  | nil => simp [spec_context_bonus]
  | cons a xs ih =>
    cases y with
    | nil => simp [spec_context_bonus]
    | cons b ys =>
      cases w with
      | nil => simp [spec_context_bonus]
      | cons c ws =>
        have hmin : min (min (a :: xs).length (b :: ys).length) (c :: ws).length
            = min (min xs.length ys.length) ws.length + 1 := by
          simp [List.length_cons, Nat.succ_min_succ]
        rw [hmin, List.range_succ_eq_map, List.map_cons, List.sum_cons, List.map_map]
        have hfun : ((fun i => if (a :: xs).getD i "" = (b :: ys).getD i ""
              then (c :: ws).getD i 0 else 0) ∘ Nat.succ)
            = (fun i => if xs.getD i "" = ys.getD i "" then ws.getD i 0 else 0) :=
          funext fun i => by simp [List.getD_cons_succ]
        rw [hfun, ih ys ws]
        simp [spec_context_bonus, List.getD_cons_zero]

/-- C2: `calculate_precise_probability` returns exactly the spec §4.5
value: the case-defined base (0.80 / penalized 0.80 / penalized 0.40),
plus — only when the code is in both documents — the context bonus with
the case-selected before/after weight lists, clamped to `[0, 1]`. -/
theorem C2_scorer_spec (code : String) (c1 c2 : Nat) (ctx1 ctx2 : ContextWindow) (b : Bool) :
    (calculate_precise_probability code c1 c2 ctx1 ctx2 b).1
      = confidence_scorer_spec c1 c2 ctx1 ctx2 b := by
  have hb3 : ∀ (x y : List String) (lx ly : Nat), x.length = lx → y.length = ly →
      ∀ (w : List ℚ), w.length = 3 →
      ((List.range (min (min lx ly) 3)).map
        (fun i => if x.getD i "" = y.getD i "" then w.getD i 0 else 0)).sum
      = spec_context_bonus x y w := by
    intro x y lx ly hx hy w hw
    rw [← hx, ← hy, ← hw]
    exact range_bonus x y w
  cases b with
  | false =>
    simp only [calculate_precise_probability, confidence_scorer_spec, Bool.false_eq_true,
      if_false, add_zero]
    rw [mul_comm, clamp_comm]
  | true =>
    simp only [calculate_precise_probability, confidence_scorer_spec, if_true]
    by_cases h0 : c1 + c2 = 0
    · simp only [h0, Nat.cast_zero, zero_mul, sub_zero, eq_self_iff_true, if_true]
      rw [max_eq_right (by norm_num : (0 : ℚ) ≤ 0.80)]
      rw [hb3 ctx1.before.reverse ctx2.before.reverse ctx1.before.length ctx2.before.length
          (List.length_reverse _) (List.length_reverse _) [0.10, 0.05, 0.02] rfl,
        hb3 ctx1.after ctx2.after ctx1.after.length ctx2.after.length rfl rfl
          [0.08, 0.05, 0.02] rfl,
        add_assoc, clamp_comm]
    · by_cases h1 : c1 = 1 ∧ c2 = 1
      · have h2 : c1 + c2 = 2 ∧ c1 = 1 ∧ c2 = 1 := ⟨by omega, h1⟩
        simp only [eq_false h0, eq_true h1, eq_true h2.1, and_true, if_true, if_false]
        rw [hb3 ctx1.before.reverse ctx2.before.reverse ctx1.before.length ctx2.before.length
            (List.length_reverse _) (List.length_reverse _) [0.10, 0.07, 0.03] rfl,
          hb3 ctx1.after ctx2.after ctx1.after.length ctx2.after.length rfl rfl
            [0.10, 0.07, 0.03] rfl,
          mul_comm (((c1 + c2 : ℕ) : ℚ)) 0.10, add_assoc, clamp_comm]
      · have h1' : ¬(c1 = 1 ∧ c2 = 1) := h1
        simp only [eq_false h0, eq_false h1', and_false, if_false]
        rw [hb3 ctx1.before.reverse ctx2.before.reverse ctx1.before.length ctx2.before.length
            (List.length_reverse _) (List.length_reverse _) [0.08, 0.05, 0.02] rfl,
          hb3 ctx1.after ctx2.after ctx1.after.length ctx2.after.length rfl rfl
            [0.08, 0.05, 0.02] rfl,
          mul_comm (((c1 + c2 : ℕ) : ℚ)) 0.10, add_assoc, clamp_comm]

theorem find?_congr {α : Type} {p q : α → Bool} (h : ∀ a, p a = q a) (l : List α) :
    l.find? p = l.find? q := by
  induction l with
  | nil => rfl
  | cons a t ih =>
    cases hqa : q a with
    | true => simp [List.find?, h a, hqa]
    | false => simp [List.find?, h a, hqa, ih]

/-- C3: the resolver is a pure function of `(candidate, vocabulary)` — in
particular, its result depends only on the membership of the vocabulary,
never on the order in which a vocabulary representation is iterated; ties
are broken by the fixed variant ordering of `generate_all_ocr_variants`
(the `find?` over that ordered list). -/
theorem C3_resolver_deterministic (code : String) (m1 m2 : List String)
    (h : ∀ s, s ∈ m1 ↔ s ∈ m2) :
    clean_code_advanced code m1 = clean_code_advanced code m2 := by
  have hfun : (fun v : String => decide (v ∈ m1)) = (fun v => decide (v ∈ m2)) :=
    funext fun v => decide_eq_decide.mpr (h v)
  have hemp : m1.isEmpty = m2.isEmpty := by
    cases m1 with
    | nil =>
      cases m2 with
      | nil => rfl
      | cons b t => exact absurd ((h b).mpr (List.mem_cons_self b t)) (List.not_mem_nil b)
    | cons a t =>
      cases m2 with
      | nil => exact absurd ((h a).mp (List.mem_cons_self a t)) (List.not_mem_nil a)
      | cons b t2 => rfl
  simp only [clean_code_advanced, hfun, hemp]

/-- C3, witness: two vocabulary representations with the same membership
but different order and multiplicity resolve `"P08"` identically. -/
theorem C3_resolver_deterministic_witness :
    clean_code_advanced "P08" ["P0B", "A1X"] = clean_code_advanced "P08" ["A1X", "P0B", "A1X"] :=
  C3_resolver_deterministic "P08" ["P0B", "A1X"] ["A1X", "P0B", "A1X"] (by
    intro s
    simp only [List.mem_cons, List.not_mem_nil, or_false]
    tauto)

/-- C4: the variant generator's output starts with the code itself,
followed by the remaining substitution permutations (the Cartesian
product over the per-position confusable alphabets) in ascending order of
the number of changed positions. -/
theorem C4_variant_ordering (c : String) :
    (generate_all_ocr_variants c).head? = some c ∧
    List.Sorted (variant_order c) (generate_all_ocr_variants c).tail ∧
    (generate_all_ocr_variants c).tail.Perm
      (((list_product (c.toList.map get_variants_for_position)).map
        (fun l => String.mk l)).filter (fun v => !(v == c))) := by
  refine ⟨rfl, ?_, ?_⟩
  · haveI : IsTotal String (variant_order c) := ⟨fun a b => Nat.le_total _ _⟩
    haveI : IsTrans String (variant_order c) := ⟨fun a b d hab hbd => Nat.le_trans hab hbd⟩
    exact List.sorted_insertionSort _ _
  · exact List.perm_insertionSort _ _

/-- C6: a candidate whose normalized (basic-cleaned) form is already a
vocabulary member resolves to that normalized form unchanged — the first
entry of the ordered variant list wins before any substitution or
shortening is considered — with 0 correction operations. -/
theorem C6_direct_short_circuit (code : String) (master : List String)
    (h : basic_clean code ∈ master) :
    clean_code_advanced code master = basic_clean code ∧
    count_corrections_needed (basic_clean code) (clean_code_advanced code master) = 0 := by
  have hres : clean_code_advanced code master = basic_clean code := by
    by_cases hc : code = ""
    · subst hc
      have hb : basic_clean "" = "" := by with_unfolding_all decide
      simp only [clean_code_advanced, if_pos rfl]
      exact hb.symm
    · simp only [clean_code_advanced, if_neg hc]
      have hne : master.isEmpty = false := by
        cases master with
        | nil => exact absurd h (List.not_mem_nil _)
        | cons a t => rfl
      simp only [hne, Bool.false_eq_true, if_false, generate_all_ocr_variants]
      rw [List.find?_cons_of_pos _ (by simpa using h)]
  refine ⟨hres, ?_⟩
  rw [hres]
  simp [count_corrections_needed]

/-- C6, witness: `" a1x. "` normalizes to `"A1X"`, a member of the
vocabulary, and resolves directly with 0 operations. -/
theorem C6_direct_short_circuit_witness :
    clean_code_advanced " a1x. " ["A1X"] = basic_clean " a1x. " ∧
    count_corrections_needed (basic_clean " a1x. ") (clean_code_advanced " a1x. " ["A1X"]) = 0 :=
  C6_direct_short_circuit " a1x. " ["A1X"] (by with_unfolding_all decide)

theorem list_index_append (l1 l2 : List String) (t : String) (h : ¬ t ∈ l1) :
    list_index (l1 ++ t :: l2) t = some l1.length := by
  induction l1 with
  | nil => simp [list_index]
  | cons a r ih =>
    have hna : ¬ a = t := fun e => h (e ▸ List.mem_cons_self a r)
    have hr : ¬ t ∈ r := fun ht => h (List.mem_cons_of_mem _ ht)
    simp [list_index, if_neg hna, ih hr]

theorem drop_append_cons (l1 : List String) (x : String) (l2 : List String) :
    (l1 ++ x :: l2).drop (l1.length + 1) = l2 := by
  induction l1 with
  | nil => rfl
  | cons a r ih =>
    simp only [List.cons_append, List.length_cons, List.drop_succ_cons]
    exact ih

/-- C7: around the first occurrence of the target (any decomposition
`l1 ++ t :: l2` with `t ∉ l1`), the context query returns the last ≤ k
codes of `l1` and the first ≤ k codes of `l2`, in list order — so a later
repetition of the target inside `l2` is simply ignored, and the query is
total (no error). -/
theorem C7_context_window (l1 l2 : List String) (t : String) (k : Nat) (h : ¬ t ∈ l1) :
    get_validated_context_codes (l1 ++ t :: l2) t k
      = { before := l1.drop (l1.length - k), after := l2.take k } ∧
    (l1.drop (l1.length - k)).length ≤ k ∧ (l2.take k).length ≤ k ∧
    l1 ++ t :: l2
      = l1.take (l1.length - k) ++ (l1.drop (l1.length - k) ++ t :: l2.take k) ++ l2.drop k := by
  refine ⟨?_, ?_, ?_, ?_⟩
  · simp only [get_validated_context_codes, list_index_append l1 l2 t h]
    rw [List.take_left, drop_append_cons]
  · rw [List.length_drop]
    omega
  · exact List.length_take_le k l2
  · conv_lhs => rw [← List.take_append_drop (l1.length - k) l1, ← List.take_append_drop k l2]
    simp only [List.append_assoc, List.cons_append]

/-- C7, witness: target `"C"` repeated — the window is taken around the
first occurrence, without error. -/
theorem C7_context_window_witness :
    get_validated_context_codes (["A", "B"] ++ "C" :: ["C", "D"]) "C" 3
      = { before := ["A", "B"].drop (["A", "B"].length - 3), after := ["C", "D"].take 3 } ∧
    ((["A", "B"] : List String).drop (["A", "B"].length - 3)).length ≤ 3 ∧
    ((["C", "D"] : List String).take 3).length ≤ 3 ∧
    ["A", "B"] ++ "C" :: ["C", "D"]
      = ["A", "B"].take (["A", "B"].length - 3)
        ++ (["A", "B"].drop (["A", "B"].length - 3) ++ "C" :: ["C", "D"].take 3)
        ++ ["C", "D"].drop 3 :=
  C7_context_window ["A", "B"] ["C", "D"] "C" 3 (by decide)

theorem zip_countP_range (o c : List Char) :
    (o.zip c).countP (fun p => !(p.1 == p.2))
      = (List.range (min o.length c.length)).countP
          (fun i => !(o.getD i ' ' == c.getD i ' ')) := by
  induction o generalizing c with
  | nil => simp
  | cons a os ih =>
    cases c with
    | nil => simp
    | cons b cs =>
      have hmin : min (a :: os).length (b :: cs).length = min os.length cs.length + 1 := by
        simp [List.length_cons, Nat.succ_min_succ]
      rw [hmin, List.range_succ_eq_map, List.zip_cons_cons, List.countP_cons, List.countP_cons,
        List.countP_map]
      have hfun : ((fun i => !((a :: os).getD i ' ' == (b :: cs).getD i ' ')) ∘ Nat.succ)
          = (fun i => !(os.getD i ' ' == cs.getD i ' ')) :=
        funext fun i => by simp [List.getD_cons_succ]
      rw [hfun, ih cs]
      simp [List.getD_cons_zero]

/-- C9: the correction-operation count equals the absolute length
difference of the upper-cased, trimmed forms plus the number of
positions, up to the shorter length, at which their characters differ; in
particular it is 0 when those forms are equal. -/
theorem C9_correction_count (original corrected : String) :
    (count_corrections_needed original corrected
      = (max (str_upper original).trim.length (str_upper corrected).trim.length
          - min (str_upper original).trim.length (str_upper corrected).trim.length)
        + (List.range (min (str_upper original).trim.length
            (str_upper corrected).trim.length)).countP
            (fun i => !((str_upper original).trim.toList.getD i ' '
              == (str_upper corrected).trim.toList.getD i ' '))) ∧
    ((str_upper original).trim = (str_upper corrected).trim
      → count_corrections_needed original corrected = 0) := by
  have hmain : count_corrections_needed original corrected
      = (max (str_upper original).trim.length (str_upper corrected).trim.length
          - min (str_upper original).trim.length (str_upper corrected).trim.length)
        + (List.range (min (str_upper original).trim.length
            (str_upper corrected).trim.length)).countP
            (fun i => !((str_upper original).trim.toList.getD i ' '
              == (str_upper corrected).trim.toList.getD i ' ')) := by
    by_cases h : original = corrected
    · subst h
      simp only [count_corrections_needed, if_pos rfl, max_self, min_self, Nat.sub_self,
        zero_add]
      symm
      apply List.countP_eq_zero.mpr
      intro i _
      simp
    · simp only [count_corrections_needed, if_neg h]
      rw [zip_countP_range]
      rfl
  refine ⟨hmain, fun he => ?_⟩
  rw [hmain, he]
  simp only [max_self, min_self, Nat.sub_self, zero_add]
  apply List.countP_eq_zero.mpr
  intro i _
  simp

/-- C9, witness: raw forms that differ only in case and padding count 0
operations. -/
theorem C9_correction_count_witness :
    count_corrections_needed " p08 " "p08" = 0 :=
  (C9_correction_count " p08 " "p08").2 (by with_unfolding_all decide)

theorem list_product_length {α : Type} (ls : List (List α)) :
    ∀ l ∈ list_product ls, l.length = ls.length := by
  induction ls with
  | nil =>
    intro l hl
    simp only [list_product, List.mem_singleton] at hl
    subst hl
    rfl
  | cons vs rest ih =>
    intro l hl
    simp only [list_product, List.mem_flatMap, List.mem_map] at hl
    obtain ⟨c, _, t, ht, rfl⟩ := hl
    simp [ih t ht]

theorem gen_all_length (c : String) : ∀ v ∈ generate_all_ocr_variants c, v.length = c.length := by
  intro v hv
  simp only [generate_all_ocr_variants] at hv
  rcases List.mem_cons.mp hv with rfl | hv
  · rfl
  · have hv2 := (List.perm_insertionSort (variant_order c) _).mem_iff.mp hv
    have hv3 := (List.mem_filter.mp hv2).1
    obtain ⟨l, hl, rfl⟩ := List.mem_map.mp hv3
    have h1 : (String.mk l).length = l.length := rfl
    rw [h1, list_product_length _ l hl, List.length_map]
    rfl

theorem azr_cases (s : String) : OCRCorrector.apply_zero_rule s = s ∨
    (OCRCorrector.apply_zero_rule s).length + 1 = s.length := by
  simp only [OCRCorrector.apply_zero_rule]
  split
  next h =>
    split
    next h2 =>
      right
      have h1 : (String.mk (s.toList.take 1 ++ s.toList.drop 2)).length
          = (s.toList.take 1 ++ s.toList.drop 2).length := rfl
      have h3 : s.length = s.toList.length := rfl
      rw [h1, h3, List.length_append, List.length_take, List.length_drop]
      omega
    next => left; rfl
  next => left; rfl

theorem foldl_set_length (comb : List (Nat × Char)) (cl : List Char) :
    (comb.foldl (fun l p => l.set p.1 p.2) cl).length = cl.length := by
  induction comb generalizing cl with
  | nil => rfl
  | cons p t ih =>
    rw [List.foldl_cons, ih, List.length_set]

/-- C5: every element produced by `generate_all_ocr_variants` has the
code's length; every element produced by `OCRCorrector.generate_variants`
on a whitespace-free code has the code's length except zero-rule
(shortening) outputs, which are one character shorter. -/
theorem C5_variant_lengths (c : String) (h : ∀ ch ∈ c.toList, ch.isWhitespace = false) :
    (∀ v ∈ generate_all_ocr_variants c, v.length = c.length) ∧
    (∀ v ∈ OCRCorrector.generate_variants c, v.length = c.length ∨
      (∃ u, u.length = c.length ∧ v = OCRCorrector.apply_zero_rule u ∧
        v.length + 1 = c.length)) := by
  have hclean : OCRCorrector.clean_whitespace c = c := by
    simp only [OCRCorrector.clean_whitespace]
    rw [List.filter_eq_self.mpr]
    · rfl
    · intro a ha
      simp [h a ha]
  have hlen : (str_upper (OCRCorrector.clean_whitespace c)).length = c.length := by
    rw [hclean]
    show (String.mk (c.toList.map Char.toUpper)).length = c.length
    have h1 : (String.mk (c.toList.map Char.toUpper)).length
        = (c.toList.map Char.toUpper).length := rfl
    rw [h1, List.length_map]
    rfl
  refine ⟨gen_all_length c, ?_⟩
  intro v hv
  simp only [OCRCorrector.generate_variants] at hv
  split at hv
  · rw [List.mem_singleton.mp hv]
    exact Or.inl hlen
  · rcases List.mem_cons.mp hv with rfl | hv2
    · exact Or.inl hlen
    · obtain ⟨comb, _, hvmem⟩ := List.mem_flatMap.mp hv2
      have hvc : ∀ u : List (Nat × Char),
          (String.mk (u.foldl (fun l p => l.set p.1 p.2)
            (str_upper (OCRCorrector.clean_whitespace c)).toList)).length = c.length := by
        intro u
        have h1 : (String.mk (u.foldl (fun l p => l.set p.1 p.2)
            (str_upper (OCRCorrector.clean_whitespace c)).toList)).length
            = (u.foldl (fun l p => l.set p.1 p.2)
              (str_upper (OCRCorrector.clean_whitespace c)).toList).length := rfl
        rw [h1, foldl_set_length]
        exact hlen
      rcases List.mem_cons.mp hvmem with rfl | hvmem2
      · exact Or.inl (hvc comb)
      · rw [List.mem_singleton.mp hvmem2]
        rcases azr_cases (String.mk (comb.foldl (fun l p => l.set p.1 p.2)
            (str_upper (OCRCorrector.clean_whitespace c)).toList)) with heq | hshort
        · rw [heq]
          exact Or.inl (hvc comb)
        · right
          refine ⟨_, hvc comb, rfl, ?_⟩
          rw [hshort]
          exact hvc comb

/-- C5, witness at the whitespace-free code `"P0B8"`. -/
theorem C5_variant_lengths_witness :
    (∀ v ∈ generate_all_ocr_variants "P0B8", v.length = "P0B8".length) ∧
    (∀ v ∈ OCRCorrector.generate_variants "P0B8", v.length = "P0B8".length ∨
      (∃ u, u.length = "P0B8".length ∧ v = OCRCorrector.apply_zero_rule u ∧
        v.length + 1 = "P0B8".length)) :=
  C5_variant_lengths "P0B8" (by with_unfolding_all decide)
